import Mathlib

set_option maxHeartbeats 2000000

/-! Verification of the breba-docs command execution core: a shallow embedding of
`src/breba_docs/services/command_executor.py` and the report-updating nodes of
`src/breba_docs/agent/graph_agent.py`, with theorems about batch execution,
output collection, the completion marker protocol, the remote response
recursion, session scoping and the repair loop.

A local shell process is modelled by the finite script of read results it will
deliver (data chunk, TIMEOUT exception, EOF exception); the remote peer is
modelled by the finite queue of response payloads it will deliver.  The external
judgment capability (the oracle) is an explicit function parameter, matching the
spec, which treats it as a stateless re-entrant collaborator. -/

/-- Modelled from the spec: `breba_docs.services.reports.CommandReport` is not
under `src/` (only its users `graph_agent.py` and `openai_agent.py` are).  Per
spec section 3 it is the immutable result of running one command: the command
text, an outcome flag (success, failure, or unknown when no judgment was
obtainable), and free-text insight.  `graph_agent.py` constructs it as
`CommandReport(command, None, None)`, so the last two fields are optional. -/
structure CommandReport where
  command : String
  success : Option Bool
  insights : Option String
deriving DecidableEq

/-- The external judgment capability (`breba_docs.services.agent.Agent`) that is
passed into each executor: `provide_input` answers with literal terminal input
text or the sentinel "breba-noop", `analyze_output` judges captured output into
a CommandReport, and `fetch_modify_file_commands` proposes corrective commands
for a failing report (the document filepath argument is fixed for a run and
therefore omitted from the embedding). -/
structure AgentModel where
  provideInput : String → String
  analyzeOutput : String → CommandReport
  fetchModifyFileCommands : CommandReport → List String

/-- One bounded-wait read from the pexpect channel: a data chunk, a TIMEOUT
exception, or an EOF exception.  Reading past the end of a script is a read
from a process that produces nothing more, which times out. -/
inductive ReadEvent where
  | data (s : String)
  | timeout
  | eof
deriving DecidableEq

/-- Python substring test on the list-of-characters form of the strings. -/
def containsSub (needle : List Char) : List Char → Bool
  | [] => needle.isEmpty
  | c :: rest => needle.isPrefixOf (c :: rest) || containsSub needle rest

/-- Python `needle in hay` for strings. -/
def pyIn (needle hay : String) : Bool := containsSub needle.data hay.data

/-- Why collect_output stopped reading: the end marker occurred in a newly read
chunk, a read timed out, or the channel reported end of stream. -/
inductive StopReason where
  | marker
  | timedOut
  | endOfFile
deriving DecidableEq

/-- Result of one collect_output call: the accumulated output, the reason the
loop stopped, how many read attempts were made, and the unconsumed remainder of
the process script. -/
structure CollectResult where
  output : String
  reason : StopReason
  reads : Nat
  rest : List ReadEvent
deriving DecidableEq

/-- collect_output (command_executor.py lines 21-38): loop reading chunks and
appending them to the accumulator; break as soon as the end marker occurs in
the newly read chunk (the membership test `command_end_marker in output` is on
the chunk variable, not the accumulator); a TIMEOUT read breaks the loop and a
EOF read breaks the loop, both returning whatever was accumulated so far. -/
def collectOutput (marker : String) : List ReadEvent → CollectResult
  | [] => ⟨"", .timedOut, 1, []⟩
  | .timeout :: rest => ⟨"", .timedOut, 1, rest⟩
  | .eof :: rest => ⟨"", .endOfFile, 1, rest⟩
  | .data s :: rest =>
    if pyIn marker s then ⟨s, .marker, 1, rest⟩
    else
      let r := collectOutput marker rest
      ⟨s ++ r.output, r.reason, r.reads + 1, r.rest⟩

/-- os.linesep on the POSIX platforms the local executor spawns /bin/bash on. -/
def linesep : String := "\n"

/-- The single-quote character used by shlex.quote. -/
def squote : Char := '\''

/-- Characters shlex.quote considers safe: ASCII word characters plus the
explicitly allowed punctuation in its unsafe-character pattern. -/
def shlexSafeChar (c : Char) : Bool :=
  c.isAlphanum || c = '_' || c = '@' || c = '%' || c = '+' || c = '=' ||
    c = ':' || c = ',' || c = '.' || c = '/' || c = '-'

/-- Expansion of a single character under the replacement step of shlex.quote:
each embedded single quote becomes quote, double quote, quote, double quote,
quote; every other character is kept. -/
def shQuoteEscChar (c : Char) : List Char :=
  if c = squote then [squote, '"', squote, '"', squote] else [c]

/-- shlex.quote from the Python standard library, as used by the echo-back step
of LocalCommandExecutor.execute_commands_sync: the empty string becomes a pair
of single quotes, a string of safe characters is returned unchanged, and any
other string is wrapped in single quotes with embedded single quotes escaped. -/
def shlexQuote (s : String) : String :=
  if s = "" then String.mk [squote, squote]
  else if s.data.all shlexSafeChar then s
  else String.mk (squote :: (s.data.map shQuoteEscChar).flatten ++ [squote])

/-- LocalCommandExecutor.get_input_text (lines 46-52): ask the oracle for input;
the sentinel "breba-noop" yields None, a non-empty instruction is returned, and
the empty instruction falls through to the implicit None. -/
def getInputText (provide : String → String) (text : String) : Option String :=
  let instruction := provide text
  if instruction = "breba-noop" then none
  else if instruction ≠ "" then some instruction
  else none

/-- Result of the inner per-command collection loop of the local executor:
the accumulated command_output, the input texts sent into the session, the
number of collect_output calls made, and the unconsumed process script. -/
structure LoopResult where
  output : String
  sends : List String
  collectCalls : Nat
  rest : List ReadEvent
deriving DecidableEq

/-- Inner per-command loop of LocalCommandExecutor.execute_commands_sync
(lines 69-80): repeatedly call collect_output; when it returned new output,
consult the input gateway; if the gateway supplies input text, append it plus a
line separator to the running output, send it, and loop; when the gateway
declines, loop back to collection anyway; stop only when a collection attempt
returns no new output. -/
def commandLoop (provide : String → String) (marker : String)
    (script : List ReadEvent) : LoopResult :=
  if h : (collectOutput marker script).output = "" then
    ⟨(collectOutput marker script).output, [], 1, (collectOutput marker script).rest⟩
  else
    match getInputText provide (collectOutput marker script).output with
    | some inputText =>
      let r := commandLoop provide marker (collectOutput marker script).rest
      ⟨(collectOutput marker script).output ++ inputText ++ linesep ++ r.output,
        inputText :: r.sends, 1 + r.collectCalls, r.rest⟩
    | none =>
      let r := commandLoop provide marker (collectOutput marker script).rest
      ⟨(collectOutput marker script).output ++ r.output,
        r.sends, 1 + r.collectCalls, r.rest⟩
termination_by script.length
decreasing_by
  all_goals
    have key : ∀ evs : List ReadEvent,
        (collectOutput marker evs).rest.length ≤ evs.length ∧
          ((collectOutput marker evs).output = "" ∨
            (collectOutput marker evs).rest.length < evs.length) := by
      intro evs
      induction evs with
      | nil => simp [collectOutput]
      | cons e rest ih =>
        cases e with
        | timeout => simp [collectOutput]
        | eof => simp [collectOutput]
        | data s =>
          by_cases hm : pyIn marker s
          · refine ⟨?_, Or.inr ?_⟩ <;> simp [collectOutput, hm]
          · obtain ⟨ih1, _⟩ := ih
            refine ⟨?_, Or.inr ?_⟩ <;> simp only [collectOutput, hm, if_false,
              Bool.false_eq_true, List.length_cons]
            · exact le_trans ih1 (Nat.le_succ _)
            · exact Nat.lt_succ_of_le ih1
  all_goals exact ((key script).2).resolve_left h

/-- Result of running one command through the local executor: its captured
output, the payloads handed to sendline for it, and the remaining script. -/
structure CommandRun where
  output : String
  sends : List String
  rest : List ReadEvent
deriving DecidableEq

/-- One iteration of the command loop of execute_commands_sync (lines 59-80):
echo the shell-escaped raw command, build the completion marker from the fixed
prefix "Completed " and the fresh token, submit the wrapped form verbatim, then
run the collection loop. -/
def runCommand (provide : String → String) (uuid : String)
    (script : List ReadEvent) (cmd : String) : CommandRun :=
  let echoMsg := "echo " ++ shlexQuote cmd ++ "\n"
  let marker := "Completed " ++ uuid
  let wrapped := cmd ++ " && echo " ++ marker
  let r := commandLoop provide marker script
  ⟨r.output, echoMsg :: wrapped :: r.sends, r.rest⟩

/-- The batch loop of LocalCommandExecutor.execute_commands_sync: run the
commands in order on one session, judging each captured output into a report as
soon as its round trip finishes; also returns the sendline payloads grouped per
command.  `idx` indexes the stream of fresh uuid tokens. -/
def runCommandsReports (agent : AgentModel) (uuids : Nat → String) :
    Nat → List ReadEvent → List String →
      List CommandReport × List (List String) × List ReadEvent
  | _, script, [] => ([], [], script)
  | idx, script, cmd :: cmds =>
    let r := runCommand agent.provideInput (uuids idx) script cmd
    let rep := agent.analyzeOutput r.output
    let rest := runCommandsReports agent uuids (idx + 1) r.rest cmds
    (rep :: rest.1, r.sends :: rest.2.1, rest.2.2)

/-- The captured outputs of the batch loop, command by command, defined by the
same sequential recursion: the specification-side notion of the captured output
of the i-th command. -/
def runCommandsOutputs (provide : String → String) (uuids : Nat → String) :
    Nat → List ReadEvent → List String → List String
  | _, _, [] => []
  | idx, script, cmd :: cmds =>
    let r := runCommand provide (uuids idx) script cmd
    r.output :: runCommandsOutputs provide uuids (idx + 1) r.rest cmds

/-- Python exceptions that can escape the executors in the embedding. -/
inductive PError where
  | timedOut
  | endOfFile
  | indexErr
deriving DecidableEq

/-- Observable session lifecycle events of one batch: the session being
created, a payload being submitted into it, and the session being closed. -/
inductive SessionEvent where
  | opened
  | sent (payload : String)
  | closed
deriving DecidableEq

/-- LocalCommandExecutor.execute_commands_sync (lines 54-84): spawn /bin/bash,
drain the startup banner with an unguarded bounded read (a TIMEOUT or EOF there
propagates, so an empty or immediately-timing-out script fails the whole batch
with no reports), then run the batch loop.  The second component is the trace
of session lifecycle events; the source contains no close call, so no
`SessionEvent.closed` is ever emitted. -/
def localExecuteCommandsSync (agent : AgentModel) (uuids : Nat → String)
    (script : List ReadEvent) (commands : List String) :
    Except PError (List CommandReport) × List SessionEvent :=
  match script with
  | [] => (.error .timedOut, [.opened])
  | .timeout :: _ => (.error .timedOut, [.opened])
  | .eof :: _ => (.error .endOfFile, [.opened])
  | .data _ :: rest =>
    let r := runCommandsReports agent uuids 0 rest commands
    (.ok r.1, .opened :: (r.2.1.flatten.map SessionEvent.sent))

/-- The captured outputs of a whole local batch, with the same banner handling
as the executor. -/
def localExecuteOutputs (agent : AgentModel) (uuids : Nat → String)
    (script : List ReadEvent) (commands : List String) :
    Except PError (List String) :=
  match script with
  | [] => .error .timedOut
  | .timeout :: _ => .error .timedOut
  | .eof :: _ => .error .endOfFile
  | .data _ :: rest =>
    .ok (runCommandsOutputs agent.provideInput uuids 0 rest commands)

/-- One lowercase hexadecimal digit, as json.dumps renders escape codes. -/
def hexDigit (n : Nat) : Char :=
  if n < 10 then Char.ofNat (48 + n) else Char.ofNat (87 + n)

/-- A four-digit JSON unicode escape. -/
def uEscape (n : Nat) : String :=
  "\\u" ++ String.mk [hexDigit (n / 4096 % 16), hexDigit (n / 256 % 16),
    hexDigit (n / 16 % 16), hexDigit (n % 16)]

/-- Escaping of one character in a JSON string literal under the json.dumps
defaults (ensure_ascii): named escapes, unicode escapes for other control and
non-ASCII characters (with surrogate pairs beyond the basic plane), everything
else unchanged. -/
def jsonEscapeChar (c : Char) : String :=
  if c = '\\' then "\\\\"
  else if c = '"' then "\\\""
  else if c = '\n' then "\\n"
  else if c = '\t' then "\\t"
  else if c = '\r' then "\\r"
  else if c.toNat = 8 then "\\b"
  else if c.toNat = 12 then "\\f"
  else if c.toNat < 32 || c.toNat > 126 then
    if c.toNat < 65536 then uEscape c.toNat
    else uEscape (55296 + (c.toNat - 65536) / 1024) ++
      uEscape (56320 + (c.toNat - 65536) % 1024)
  else String.singleton c

/-- json.dumps escaping of a whole string body. -/
def jsonEscape (s : String) : String := String.join (s.data.map jsonEscapeChar)

/-- json.dumps of a one-field object of strings, as produced for the
`\x7b"command": ...\x7d` and `\x7b"input": ...\x7d` protocol messages. -/
def jsonDumpsObj (key value : String) : String :=
  "\x7b\"" ++ key ++ "\": \"" ++ jsonEscape value ++ "\"\x7d"

/-- ContainerCommandExecutor.get_input_message (lines 91-96): ask the oracle;
the sentinel "breba-noop" yields None, a non-empty instruction is wrapped into
an input message, and the empty instruction falls through to None. -/
def getInputMessage (provide : String → String) (text : String) : Option String :=
  let instruction := provide text
  if instruction = "breba-noop" then none
  else if instruction ≠ "" then some (jsonDumpsObj "input" instruction)
  else none

/-- Modelled from the spec: `breba_docs.socket_server.client.Client` is not
under `src/`.  Per spec sections 4.5 and 6 it is a socket connection to the
remote execution peer, scoped to one batch, where `send_message` delivers one
message and awaits one response payload and `read_response` awaits one further
response payload; an empty payload is the sentinel for no more output.  The
peer is modelled as the finite queue of payloads it will deliver; a drained
peer delivers the empty sentinel.  `sent` records the delivered messages. -/
structure ClientState where
  pending : List String
  sent : List String
deriving DecidableEq

/-- Modelled from the spec: Client.send_message delivers the message to the
peer and returns the next response payload. -/
def ClientState.sendMessage (c : ClientState) (msg : String) : String × ClientState :=
  match c.pending with
  | [] => ("", ⟨[], c.sent ++ [msg]⟩)
  | r :: rs => (r, ⟨rs, c.sent ++ [msg]⟩)

/-- Modelled from the spec: Client.read_response returns the next response
payload without sending anything. -/
def ClientState.readResponse (c : ClientState) : String × ClientState :=
  match c.pending with
  | [] => ("", c)
  | r :: rs => (r, ⟨rs, c.sent⟩)

/-- The input-injection step at the head of collect_response: if the gateway
produced an input message, send it and take its response; otherwise the input
response is the empty string and nothing is sent. -/
def oracleStep (provide : String → String) (response : String)
    (client : ClientState) : String × ClientState :=
  match getInputMessage provide response with
  | some msg => client.sendMessage msg
  | none => ("", client)

/-- ContainerCommandExecutor.collect_response (lines 98-123): an empty response
returns the empty string at once; otherwise possibly inject input, then always
read one more trailing response and recurse on it, concatenating the initial
response, the input response and the recursive result. -/
def collectResponse (provide : String → String) (response : String)
    (client : ClientState) : String × ClientState :=
  if hr : response = "" then ("", client)
  else
    let afterRead := (oracleStep provide response client).2.readResponse
    let rest := collectResponse provide afterRead.1 afterRead.2
    (response ++ (oracleStep provide response client).1 ++ rest.1, rest.2)
termination_by client.pending.length * 2 + (if response = "" then 0 else 1)
decreasing_by
  have h2 : (oracleStep provide response client).2.pending.length ≤
      client.pending.length := by
    unfold oracleStep
    rcases getInputMessage provide response with _ | msg
    · simp
    · rcases client with ⟨pending, sent⟩
      cases pending <;> simp [ClientState.sendMessage]
  rcases hcc : (oracleStep provide response client).2 with ⟨pending1, sent1⟩
  rw [hcc] at h2
  simp only [hcc, hr, if_false]
  cases pending1 with
  | nil => simp [ClientState.readResponse]
  | cons p ps =>
    simp only [ClientState.readResponse, List.length_cons] at h2 ⊢
    split <;> omega

/-- Specification-side description of the remote draining rule: concatenate the
responses in order, stopping at the first empty one. -/
def concatUntilEmpty : List String → String
  | [] => ""
  | s :: rest => if s = "" then "" else s ++ concatUntilEmpty rest

/-- The batch loop of ContainerCommandExecutor.execute_commands_sync (lines
130-134): for each command send a command message, drain its responses through
collect_response, and judge the drained output into a report at once. -/
def containerRunReports (agent : AgentModel) :
    List String → ClientState → List CommandReport × ClientState
  | [], c => ([], c)
  | cmd :: cmds, c =>
    let r := c.sendMessage (jsonDumpsObj "command" cmd)
    let full := collectResponse agent.provideInput r.1 r.2
    let rep := agent.analyzeOutput full.1
    let rest := containerRunReports agent cmds full.2
    (rep :: rest.1, rest.2)

/-- The drained outputs of the container batch loop, command by command, by the
same sequential recursion. -/
def containerRunOutputs (provide : String → String) :
    List String → ClientState → List String × ClientState
  | [], c => ([], c)
  | cmd :: cmds, c =>
    let r := c.sendMessage (jsonDumpsObj "command" cmd)
    let full := collectResponse provide r.1 r.2
    let rest := containerRunOutputs provide cmds full.2
    (full.1 :: rest.1, rest.2)

/-- ContainerCommandExecutor.execute_commands_sync (lines 125-135): one client
connection is opened for the whole batch with a `with` block, the batch loop
runs on it, and the scoped teardown closes the connection on every exit path. -/
def containerExecuteCommandsSync (agent : AgentModel) (commands : List String)
    (pending : List String) : List CommandReport × List SessionEvent :=
  let r := containerRunReports agent commands ⟨pending, []⟩
  (r.1, .opened :: (r.2.sent.map SessionEvent.sent ++ [.closed]))

/-- The heap of Python list objects reachable from goal reports: list
attributes of a dataclass are references into this store, so a shallow
dataclasses.replace copy shares them. -/
structure RefStore where
  lists : List (List CommandReport)
deriving DecidableEq

/-- Dereference a list reference (a missing reference dereferences to the
empty list; real executions only create references into the store). -/
def RefStore.get (st : RefStore) (r : Nat) : List CommandReport :=
  st.lists.getD r []

/-- In-place mutation of the list object behind a reference, as Python
`+=` on a list attribute performs. -/
def RefStore.set (st : RefStore) (r : Nat) (v : List CommandReport) : RefStore :=
  ⟨st.lists.set r v⟩

/-- Modelled from the spec: `breba_docs.services.reports.GoalReport` is not
under `src/`.  Per spec section 3 it is a dataclass holding a goal name, its
description, the ordered command reports for the goal, and a separate ordered
list of modification reports produced by the repair loop.  The two list
attributes are references into the store, which is what makes the shallow-copy
aliasing of dataclasses.replace expressible. -/
structure GoalReport where
  goal_name : String
  goal_description : String
  command_reports : Nat
  modify_command_reports : Nat
deriving DecidableEq

/-- Python truthiness of `not command_report.success`: None (no judgment) and
False both count as failed, True as successful. -/
def isFailed (cr : CommandReport) : Bool :=
  match cr.success with
  | some true => false
  | _ => true

/-- The command reports of a goal for which the repair loop requests
remediation. -/
def failedReports (l : List CommandReport) : List CommandReport :=
  l.filter isFailed

/-- The iteration of GraphAgent.execute_mutator_commands over the current
goal's command reports (graph_agent.py lines 62-67): for every report that is
not successful, fetch corrective commands, execute them through a fresh local
session, and extend the list object behind the modification-reports reference
in place.  `spawnScripts` supplies the read script of the i-th spawned shell;
an exception from the local executor propagates.  Returns the final store, the
next spawn index, and the reports remediation was requested for, in order. -/
def mutatorLoop (agent : AgentModel) (uuids : Nat → String)
    (spawnScripts : Nat → List ReadEvent) (modRef : Nat) :
    Nat → RefStore → List CommandReport →
      Except PError (RefStore × Nat × List CommandReport)
  | spawnIdx, store, [] => .ok (store, spawnIdx, [])
  | spawnIdx, store, cr :: crs =>
    if isFailed cr then
      match (localExecuteCommandsSync agent uuids (spawnScripts spawnIdx)
          (agent.fetchModifyFileCommands cr)).1 with
      | .error e => .error e
      | .ok reps =>
        let store2 := store.set modRef (store.get modRef ++ reps)
        match mutatorLoop agent uuids spawnScripts modRef (spawnIdx + 1) store2 crs with
        | .error e => .error e
        | .ok (st, si, reqs) => .ok (st, si, cr :: reqs)
    else
      mutatorLoop agent uuids spawnScripts modRef spawnIdx store crs

/-- GraphAgent.execute_mutator_commands (graph_agent.py lines 59-68):
dataclasses.replace makes a shallow copy of the last goal report (same list
references), the loop above runs over its command reports as they are at loop
entry, the earlier goal reports are shallow-copied likewise, and the copied
last report replaces the original at the end of the list.  An empty
goal_reports list raises IndexError. -/
def executeMutatorCommands (agent : AgentModel) (uuids : Nat → String)
    (spawnScripts : Nat → List ReadEvent) (goalReports : List GoalReport)
    (store : RefStore) :
    Except PError (List GoalReport × RefStore × List CommandReport) :=
  match goalReports.getLast? with
  | none => .error .indexErr
  | some current =>
    match mutatorLoop agent uuids spawnScripts current.modify_command_reports 0
        store (store.get current.command_reports) with
    | .error e => .error e
    | .ok (store2, _, reqs) =>
      .ok (goalReports.dropLast ++ [current], store2, reqs)

/-- Specification-side predicate for collect_output: an event that does not
stop the collection loop, namely a data chunk that does not contain the
marker. -/
def nonStop (marker : String) : ReadEvent → Bool
  | ReadEvent.data s => !(pyIn marker s)
  | _ => false

/-- Concatenation of the data chunks of a list of read events. -/
def dataConcat : List ReadEvent → String
  | [] => ""
  | ReadEvent.data s :: rest => s ++ dataConcat rest
  | _ :: rest => dataConcat rest

/-- Fixture oracle answering every prompt question with the no-input
sentinel. -/
def provideNoop : String → String := fun _ => "breba-noop"

/-- Fixture agent: never requests input, judges every output successful while
recording it, proposes the single corrective command "fix". -/
def agentNoop : AgentModel :=
  ⟨provideNoop, fun o => ⟨o, some true, none⟩, fun _ => ["fix"]⟩

/-- Fixture stream of distinct uuid tokens. -/
def uuidsIdx : Nat → String := fun n => String.mk (List.replicate n 'u')

/-- The report the fixture agent produces for empty captured output. -/
def repEmpty : CommandReport := ⟨"", some true, none⟩

/-- A command report marked failed, as left by a failing command. -/
def crFail : CommandReport := ⟨"false", some false, none⟩

/-- Store holding the failing command report list (reference 0) and the empty
modification report list (reference 1) of the fixture goal. -/
def storeBug : RefStore := ⟨[[crFail], []]⟩

/-- The fixture store after the repair loop ran: the list object behind
reference 1 was extended in place. -/
def storeBugAfter : RefStore := ⟨[[crFail], [repEmpty]]⟩

/-- Fixture goal report whose command reports live at reference 0 and whose
modification reports live at reference 1. -/
def goalBug : GoalReport := ⟨"goal", "desc", 0, 1⟩

/-- Fixture spawn scripts: every spawned shell prints a banner and nothing
else. -/
def scriptsBug : Nat → List ReadEvent := fun _ => [ReadEvent.data "banner"]

/-- Fixture oracle that always answers with the empty string. -/
def emptyOracle : String → String := fun _ => ""

/-! Helper lemmas about the output collector. -/

theorem collectOutput_rest_le (marker : String) (evs : List ReadEvent) :
    (collectOutput marker evs).rest.length ≤ evs.length := by
  induction evs with
  | nil => simp [collectOutput]
  | cons e rest ih =>
    cases e with
    | timeout => simp [collectOutput]
    | eof => simp [collectOutput]
    | data s =>
      by_cases hm : pyIn marker s
      · simp [collectOutput, hm]
      · simp only [collectOutput, hm, if_false, Bool.false_eq_true, List.length_cons]
        exact le_trans ih (Nat.le_succ _)

theorem collectOutput_rest_lt (marker : String) (evs : List ReadEvent)
    (h : (collectOutput marker evs).output ≠ "") :
    (collectOutput marker evs).rest.length < evs.length := by
  cases evs with
  | nil => simp [collectOutput] at h
  | cons e rest =>
    cases e with
    | timeout => simp [collectOutput] at h
    | eof => simp [collectOutput] at h
    | data s =>
      by_cases hm : pyIn marker s
      · simp [collectOutput, hm]
      · simp only [collectOutput, hm, if_false, Bool.false_eq_true, List.length_cons]
        exact Nat.lt_succ_of_le (collectOutput_rest_le marker rest)

theorem collectOutput_reads_le (marker : String) (evs : List ReadEvent) :
    (collectOutput marker evs).reads ≤ evs.length + 1 := by
  induction evs with
  | nil => simp [collectOutput]
  | cons e rest ih =>
    cases e with
    | timeout => simp [collectOutput]
    | eof => simp [collectOutput]
    | data s =>
      by_cases hm : pyIn marker s
      · simp [collectOutput, hm]
      · simp only [collectOutput, hm, if_false, Bool.false_eq_true, List.length_cons]
        omega

theorem collectOutput_marker_stop (marker : String) :
    ∀ (pre : List ReadEvent) (s : String) (post : List ReadEvent),
      (∀ e ∈ pre, nonStop marker e = true) → pyIn marker s = true →
      collectOutput marker (pre ++ ReadEvent.data s :: post)
        = ⟨dataConcat pre ++ s, .marker, pre.length + 1, post⟩ := by
  intro pre
  induction pre with
  | nil =>
    intro s post _ hm
    simp [collectOutput, hm, dataConcat, String.empty_append]
  | cons e pre ih =>
    intro s post hpre hm
    cases e with
    | timeout => exact absurd (hpre _ (List.mem_cons_self _ _)) (by simp [nonStop])
    | eof => exact absurd (hpre _ (List.mem_cons_self _ _)) (by simp [nonStop])
    | data s0 =>
      have h0 : pyIn marker s0 = false := by
        have := hpre _ (List.mem_cons_self _ _)
        simpa [nonStop] using this
      have hrec := ih s post (fun e he => hpre e (List.mem_cons_of_mem _ he)) hm
      simp only [List.cons_append, collectOutput, h0, if_false, Bool.false_eq_true,
        List.append_eq, hrec, dataConcat, List.length_cons, CollectResult.mk.injEq,
        String.append_assoc]

theorem collectOutput_timeout_stop (marker : String) :
    ∀ (pre : List ReadEvent) (post : List ReadEvent),
      (∀ e ∈ pre, nonStop marker e = true) →
      collectOutput marker (pre ++ ReadEvent.timeout :: post)
        = ⟨dataConcat pre, .timedOut, pre.length + 1, post⟩ := by
  intro pre
  induction pre with
  | nil =>
    intro post _
    simp [collectOutput, dataConcat]
  | cons e pre ih =>
    intro post hpre
    cases e with
    | timeout => exact absurd (hpre _ (List.mem_cons_self _ _)) (by simp [nonStop])
    | eof => exact absurd (hpre _ (List.mem_cons_self _ _)) (by simp [nonStop])
    | data s0 =>
      have h0 : pyIn marker s0 = false := by
        have := hpre _ (List.mem_cons_self _ _)
        simpa [nonStop] using this
      have hrec := ih post (fun e he => hpre e (List.mem_cons_of_mem _ he))
      simp only [List.cons_append, collectOutput, h0, if_false, Bool.false_eq_true,
        List.append_eq, hrec, dataConcat, List.length_cons, CollectResult.mk.injEq]

/-- C2 is corrected by this counterexample: with marker "Completed 123" split
across the two consecutive chunks "Comple" and "ted 123", the marker has fully
appeared in the stream (it is a substring of the accumulated output), yet
collect_output does not stop at the second read: it performs a third read and
returns only via that read's timeout, because the source tests the marker only
against the newly read chunk, never across the join boundary. -/
theorem collect_output_split_marker_counterexample :
    collectOutput "Completed 123" [ReadEvent.data "Comple", ReadEvent.data "ted 123",
        ReadEvent.timeout]
      = ⟨"Completed 123", StopReason.timedOut, 3, []⟩
    ∧ pyIn "Completed 123" ("Comple" ++ "ted 123") = true
    ∧ (collectOutput "Completed 123" [ReadEvent.data "Comple", ReadEvent.data "ted 123",
        ReadEvent.timeout]).reason ≠ StopReason.marker := by
  refine ⟨by decide, by decide, by decide⟩

/-- C2 amended: collect_output returns within a number of read attempts bounded
by the stream length plus one; it returns the accumulated output as soon as the
marker appears within a single newly read chunk; marker text split across two
consecutive reads is not detected as completion; and when a bounded-wait read
times out with no new data it returns the partial output collected so far
rather than raising an error. -/
theorem collect_output_characterization :
    (∀ (marker : String) (evs : List ReadEvent),
      (collectOutput marker evs).reads ≤ evs.length + 1)
    ∧ (∀ (marker : String) (pre : List ReadEvent) (s : String) (post : List ReadEvent),
        (∀ e ∈ pre, nonStop marker e = true) → pyIn marker s = true →
        collectOutput marker (pre ++ ReadEvent.data s :: post)
          = ⟨dataConcat pre ++ s, .marker, pre.length + 1, post⟩)
    ∧ (∀ (marker : String) (pre post : List ReadEvent),
        (∀ e ∈ pre, nonStop marker e = true) →
        collectOutput marker (pre ++ ReadEvent.timeout :: post)
          = ⟨dataConcat pre, .timedOut, pre.length + 1, post⟩) :=
  ⟨collectOutput_reads_le, collectOutput_marker_stop, collectOutput_timeout_stop⟩

/-- Witness for the amended C2 theorem at concrete inputs. -/
theorem collect_output_characterization_witness :
    (collectOutput "Completed z" [ReadEvent.data "hi", ReadEvent.data "ok Completed z",
        ReadEvent.timeout]
      = ⟨"hi" ++ "ok Completed z", .marker, 2, [ReadEvent.timeout]⟩)
    ∧ (collectOutput "Completed z" [ReadEvent.data "hi", ReadEvent.timeout,
        ReadEvent.data "late"]
      = ⟨"hi", .timedOut, 2, [ReadEvent.data "late"]⟩) := by
  constructor
  · have h := collect_output_characterization.2.1 "Completed z" [ReadEvent.data "hi"]
      "ok Completed z" [ReadEvent.timeout] (by decide) (by decide)
    simpa [dataConcat] using h
  · have h := collect_output_characterization.2.2 "Completed z" [ReadEvent.data "hi"]
      [ReadEvent.data "late"] (by decide)
    simpa [dataConcat] using h

/-! Helper lemmas about the inner collection loop of the local executor. -/

theorem commandLoop_collectCalls_pos (provide : String → String) (marker : String)
    (script : List ReadEvent) : 1 ≤ (commandLoop provide marker script).collectCalls := by
  rw [commandLoop]
  split
  · simp
  · split <;> simp

theorem commandLoop_noop_sends (provide : String → String) (marker : String)
    (hno : ∀ s, provide s = "breba-noop") (script : List ReadEvent) :
    (commandLoop provide marker script).sends = [] := by
  generalize hgen : script.length = n
  induction n using Nat.strong_induction_on generalizing script with
  | _ n ih =>
    rw [commandLoop]
    split
    · rfl
    · next h =>
      have hlt := collectOutput_rest_lt marker script h
      have hni : getInputText provide (collectOutput marker script).output = none := by
        simp [getInputText, hno]
      rw [hni]
      exact ih _ (hgen ▸ hlt) _ rfl

theorem commandLoop_noop_recollects (provide : String → String) (marker : String)
    (hno : ∀ s, provide s = "breba-noop") (script : List ReadEvent)
    (h : (collectOutput marker script).output ≠ "") :
    2 ≤ (commandLoop provide marker script).collectCalls := by
  rw [commandLoop]
  split
  · next h0 => exact absurd h0 h
  · next h0 =>
    have hni : getInputText provide (collectOutput marker script).output = none := by
      simp [getInputText, hno]
    rw [hni]
    have := commandLoop_collectCalls_pos provide marker (collectOutput marker script).rest
    simp only [LoopResult.collectCalls]
    omega

/-- C3 is corrected by this counterexample: the collector returns the non-empty
new output "hello", the oracle answers with the no-input sentinel, and the
executor indeed sends nothing — but it does not stop immediately: it performs a
second collection attempt (collectCalls is 2, not 1), because the loop only
breaks when a collection attempt returns no new output. -/
theorem noop_does_not_stop_collection_counterexample :
    (commandLoop provideNoop "Completed X" [ReadEvent.data "hello", ReadEvent.timeout]).output
        = "hello"
    ∧ (commandLoop provideNoop "Completed X"
        [ReadEvent.data "hello", ReadEvent.timeout]).sends = []
    ∧ (commandLoop provideNoop "Completed X"
        [ReadEvent.data "hello", ReadEvent.timeout]).collectCalls = 2 := by
  have e1 : collectOutput "Completed X" [ReadEvent.data "hello", ReadEvent.timeout]
      = ⟨"hello", .timedOut, 2, []⟩ := by decide
  have e2 : collectOutput "Completed X" ([] : List ReadEvent)
      = ⟨"", .timedOut, 1, []⟩ := by decide
  have h2 : commandLoop provideNoop "Completed X" ([] : List ReadEvent)
      = ⟨"", [], 1, []⟩ := by
    rw [commandLoop]
    simp [e2]
  have h1 : commandLoop provideNoop "Completed X"
      [ReadEvent.data "hello", ReadEvent.timeout] = ⟨"hello", [], 2, []⟩ := by
    rw [commandLoop]
    simp only [e1]
    rw [dif_neg (by decide)]
    have hni : getInputText provideNoop "hello" = none := by
      simp [getInputText, provideNoop]
    simp only [hni, h2]
    decide
  simp [h1]

/-- C3 amended: when the oracle always answers with the no-input sentinel
"breba-noop", the local executor's per-command loop sends nothing into the
session, but it does not stop at the first such answer: after a collection
attempt that returned non-empty output it performs at least one further
collection attempt, stopping only when a collection attempt returns no new
output. -/
theorem noop_sends_nothing_and_recollects (provide : String → String)
    (marker : String) (script : List ReadEvent)
    (hno : ∀ s, provide s = "breba-noop") :
    (commandLoop provide marker script).sends = []
    ∧ ((collectOutput marker script).output ≠ "" →
        2 ≤ (commandLoop provide marker script).collectCalls) :=
  ⟨commandLoop_noop_sends provide marker hno script,
    fun h => commandLoop_noop_recollects provide marker hno script h⟩

/-- Witness for the amended C3 theorem at concrete inputs. -/
theorem noop_sends_nothing_and_recollects_witness :
    (commandLoop provideNoop "Completed w" [ReadEvent.data "out", ReadEvent.timeout]).sends = []
    ∧ 2 ≤ (commandLoop provideNoop "Completed w"
        [ReadEvent.data "out", ReadEvent.timeout]).collectCalls := by
  have h := noop_sends_nothing_and_recollects provideNoop "Completed w"
    [ReadEvent.data "out", ReadEvent.timeout] (fun _ => rfl)
  exact ⟨h.1, h.2 (by decide)⟩

/-! Helper lemmas relating the executors to their captured outputs. -/

theorem runCommandsReports_eq (agent : AgentModel) (uuids : Nat → String) :
    ∀ (cmds : List String) (idx : Nat) (script : List ReadEvent),
      (runCommandsReports agent uuids idx script cmds).1
        = (runCommandsOutputs agent.provideInput uuids idx script cmds).map
            agent.analyzeOutput := by
  intro cmds
  induction cmds with
  | nil => intro idx script; rfl
  | cons c cs ih =>
    intro idx script
    simp [runCommandsReports, runCommandsOutputs, ih]

theorem runCommandsOutputs_length (provide : String → String) (uuids : Nat → String) :
    ∀ (cmds : List String) (idx : Nat) (script : List ReadEvent),
      (runCommandsOutputs provide uuids idx script cmds).length = cmds.length := by
  intro cmds
  induction cmds with
  | nil => intro idx script; rfl
  | cons c cs ih =>
    intro idx script
    simp [runCommandsOutputs, ih]

theorem containerRun_eq (agent : AgentModel) :
    ∀ (cmds : List String) (c : ClientState),
      (containerRunReports agent cmds c).1
        = (containerRunOutputs agent.provideInput cmds c).1.map agent.analyzeOutput
      ∧ (containerRunReports agent cmds c).2
          = (containerRunOutputs agent.provideInput cmds c).2
      ∧ (containerRunReports agent cmds c).1.length = cmds.length := by
  intro cmds
  induction cmds with
  | nil => intro c; exact ⟨rfl, rfl, rfl⟩
  | cons cmd cs ih =>
    intro c
    obtain ⟨ih1, ih2, ih3⟩ := ih (collectResponse agent.provideInput
      (c.sendMessage (jsonDumpsObj "command" cmd)).1
      (c.sendMessage (jsonDumpsObj "command" cmd)).2).2
    have ih4 : (containerRunOutputs agent.provideInput cs (collectResponse agent.provideInput
        (c.sendMessage (jsonDumpsObj "command" cmd)).1
        (c.sendMessage (jsonDumpsObj "command" cmd)).2).2).1.length = cs.length := by
      rw [ih1] at ih3
      simpa using ih3
    simp [containerRunReports, containerRunOutputs, ih1, ih2, ih4]

/-- C1: for every batch, both executors produce exactly one CommandReport per
input command, in input order: the report list of the local executor is the
judgment map over its captured-outputs list whenever the banner read succeeds
(and the error is propagated unchanged otherwise), the container executor's
report list is the judgment map over its drained-outputs list and has the
batch's length, and the batch recursion is sequential: the head command's full
round trip (submit, collect, judge) is finished, leaving the channel state its
loop left, before the remaining commands are run on that state. -/
theorem batch_reports_length_and_order (agent : AgentModel) (uuids : Nat → String)
    (script : List ReadEvent) (lcmds ccmds pending : List String) :
    (localExecuteCommandsSync agent uuids script lcmds).1
      = (localExecuteOutputs agent uuids script lcmds).map
          (fun outs => outs.map agent.analyzeOutput)
    ∧ (∀ outs, localExecuteOutputs agent uuids script lcmds = .ok outs →
        outs.length = lcmds.length)
    ∧ (containerExecuteCommandsSync agent ccmds pending).1
        = (containerRunOutputs agent.provideInput ccmds ⟨pending, []⟩).1.map
            agent.analyzeOutput
    ∧ ((containerExecuteCommandsSync agent ccmds pending).1).length = ccmds.length
    ∧ (∀ (idx : Nat) (script2 : List ReadEvent) (cmd : String) (cmds2 : List String),
        runCommandsReports agent uuids idx script2 (cmd :: cmds2)
          = (agent.analyzeOutput
                (runCommand agent.provideInput (uuids idx) script2 cmd).output
              :: (runCommandsReports agent uuids (idx + 1)
                    (runCommand agent.provideInput (uuids idx) script2 cmd).rest cmds2).1,
             (runCommand agent.provideInput (uuids idx) script2 cmd).sends
              :: (runCommandsReports agent uuids (idx + 1)
                    (runCommand agent.provideInput (uuids idx) script2 cmd).rest cmds2).2.1,
             (runCommandsReports agent uuids (idx + 1)
                (runCommand agent.provideInput (uuids idx) script2 cmd).rest cmds2).2.2)) := by
  refine ⟨?_, ?_, ?_, ?_, ?_⟩
  · cases script with
    | nil => rfl
    | cons e rest =>
      cases e <;>
        simp [localExecuteCommandsSync, localExecuteOutputs, Except.map,
          runCommandsReports_eq]
  · intro outs h
    cases script with
    | nil => exact absurd h (by simp [localExecuteOutputs])
    | cons e rest =>
      cases e with
      | data s =>
        simp only [localExecuteOutputs, Except.ok.injEq] at h
        rw [← h, runCommandsOutputs_length]
      | timeout => exact absurd h (by simp [localExecuteOutputs])
      | eof => exact absurd h (by simp [localExecuteOutputs])
  · exact (containerRun_eq agent ccmds ⟨pending, []⟩).1
  · exact (containerRun_eq agent ccmds ⟨pending, []⟩).2.2
  · intro idx script2 cmd cmds2
    rfl

/-- Witness for C1 at concrete inputs. -/
theorem batch_reports_length_and_order_witness :
    (localExecuteCommandsSync agentNoop uuidsIdx [ReadEvent.data "b"] []).1
      = (localExecuteOutputs agentNoop uuidsIdx [ReadEvent.data "b"] []).map
          (fun outs => outs.map agentNoop.analyzeOutput)
    ∧ ([] : List String).length = ([] : List String).length
    ∧ (containerExecuteCommandsSync agentNoop ["pwd"] ["out1"]).1
        = (containerRunOutputs agentNoop.provideInput ["pwd"] ⟨["out1"], []⟩).1.map
            agentNoop.analyzeOutput
    ∧ ((containerExecuteCommandsSync agentNoop ["pwd"] ["out1"]).1).length
        = (["pwd"] : List String).length := by
  have h := batch_reports_length_and_order agentNoop uuidsIdx [ReadEvent.data "b"]
    [] ["pwd"] ["out1"]
  exact ⟨h.1, h.2.1 [] rfl, h.2.2.1, h.2.2.2.1⟩

/-- C10: if the freshly spawned shell produces no startup output within the
initial bounded read (an empty script or one that begins with a TIMEOUT), the
local executor propagates the timeout exception before submitting any command,
so the whole batch fails with no CommandReports and the trace holds only the
session-opened event; and this startup-banner drain is the only read of the
batch loop not guarded by a timeout handler: whenever the banner read returns
data, the batch runs to completion and returns a report list. -/
theorem banner_timeout_propagates (agent : AgentModel) (uuids : Nat → String)
    (script : List ReadEvent) (cmds : List String) :
    ((script = [] ∨ script.head? = some ReadEvent.timeout) →
      localExecuteCommandsSync agent uuids script cmds
        = (.error PError.timedOut, [SessionEvent.opened]))
    ∧ (∀ s t, script = ReadEvent.data s :: t →
        (localExecuteCommandsSync agent uuids script cmds).1
          = .ok ((runCommandsOutputs agent.provideInput uuids 0 t cmds).map
              agent.analyzeOutput)) := by
  constructor
  · rintro (rfl | hh)
    · rfl
    · cases script with
      | nil => rfl
      | cons e rest => cases e <;> simp_all [localExecuteCommandsSync]
  · rintro s t rfl
    simp [localExecuteCommandsSync, runCommandsReports_eq]

/-- Witness for C10 at concrete inputs. -/
theorem banner_timeout_propagates_witness :
    localExecuteCommandsSync agentNoop uuidsIdx [] ["ls"]
        = (.error PError.timedOut, [SessionEvent.opened])
    ∧ (localExecuteCommandsSync agentNoop uuidsIdx [ReadEvent.data "b"] []).1
        = .ok ((runCommandsOutputs agentNoop.provideInput uuidsIdx 0 [] []).map
            agentNoop.analyzeOutput) :=
  ⟨(banner_timeout_propagates agentNoop uuidsIdx [] ["ls"]).1 (Or.inl rfl),
    (banner_timeout_propagates agentNoop uuidsIdx [ReadEvent.data "b"] []).2 "b" [] rfl⟩

/-! Helper lemmas about the completion marker protocol. -/

theorem runCommands_sends_shape (agent : AgentModel) (uuids : Nat → String) :
    ∀ (cmds : List String) (idx : Nat) (script : List ReadEvent) (i : Nat)
      (h : i < cmds.length),
      ∃ rest,
        (runCommandsReports agent uuids idx script cmds).2.1.get? i
          = some (("echo " ++ shlexQuote (cmds.get ⟨i, h⟩) ++ "\n")
              :: (cmds.get ⟨i, h⟩ ++ " && echo " ++ ("Completed " ++ uuids (idx + i)))
              :: rest) := by
  intro cmds
  induction cmds with
  | nil => intro idx script i h; exact absurd h (by simp)
  | cons c cs ih =>
    intro idx script i h
    cases i with
    | zero =>
      refine ⟨(commandLoop agent.provideInput ("Completed " ++ uuids idx) script).sends, ?_⟩
      simp [runCommandsReports, runCommand]
    | succ i =>
      have h2 : i < cs.length := by simpa using h
      obtain ⟨rest, hr⟩ := ih (idx + 1)
        (runCommand agent.provideInput (uuids idx) script c).rest i h2
      refine ⟨rest, ?_⟩
      have hidx : idx + 1 + i = idx + (i + 1) := by omega
      rw [hidx] at hr
      simpa [runCommandsReports] using hr

theorem uuidsIdx_injective : Function.Injective uuidsIdx := by
  intro a b h
  have h2 : List.replicate a 'u' = List.replicate b 'u' := congrArg String.data h
  have h3 := congrArg List.length h2
  simpa using h3

/-- C8: for every raw command, the local batch loop first hands the session a
shell-escaped echo of the raw command text, then submits the wrapped form
command plus " && echo " plus the marker verbatim, where the marker of the i-th
command is the fixed prefix "Completed " followed by the i-th token of the
fresh-token stream; and distinct commands get distinct markers whenever the
token stream is injective. -/
theorem echo_then_wrapped_submission :
    (∀ (agent : AgentModel) (uuids : Nat → String) (idx : Nat)
        (script : List ReadEvent) (cmds : List String) (i : Nat)
        (h : i < cmds.length),
      ∃ rest,
        (runCommandsReports agent uuids idx script cmds).2.1.get? i
          = some (("echo " ++ shlexQuote (cmds.get ⟨i, h⟩) ++ "\n")
              :: (cmds.get ⟨i, h⟩ ++ " && echo " ++ ("Completed " ++ uuids (idx + i)))
              :: rest))
    ∧ (∀ (uuids : Nat → String), Function.Injective uuids →
        ∀ i j : Nat, i ≠ j →
          ("Completed " ++ uuids i) ≠ ("Completed " ++ uuids j)) := by
  constructor
  · intro agent uuids idx script cmds i h
    exact runCommands_sends_shape agent uuids cmds idx script i h
  · intro uuids hinj i j hij heq
    have hd := congrArg String.data heq
    rw [String.data_append, String.data_append] at hd
    exact hij (hinj (String.ext (List.append_cancel_left hd)))

/-- Witness for C8 at concrete inputs. -/
theorem echo_then_wrapped_submission_witness :
    (∃ rest,
      (runCommandsReports agentNoop uuidsIdx 0 [] ["ls"]).2.1.get? 0
        = some (("echo " ++ shlexQuote ((["ls"] : List String).get ⟨0, by decide⟩) ++ "\n")
            :: ((["ls"] : List String).get ⟨0, by decide⟩ ++ " && echo "
                ++ ("Completed " ++ uuidsIdx (0 + 0)))
            :: rest))
    ∧ ("Completed " ++ uuidsIdx 0) ≠ ("Completed " ++ uuidsIdx 1) :=
  ⟨echo_then_wrapped_submission.1 agentNoop uuidsIdx 0 [] ["ls"] 0 (by decide),
    echo_then_wrapped_submission.2 uuidsIdx uuidsIdx_injective 0 1 (by decide)⟩

/-! Helper lemmas about the remote response recursion. -/

theorem collectResponse_empty (provide : String → String) (c : ClientState) :
    collectResponse provide "" c = ("", c) := by
  rw [collectResponse]
  simp

theorem collectResponse_noop (provide : String → String)
    (hno : ∀ s, provide s = "breba-noop") :
    ∀ (pending : List String) (r : String) (sent : List String), r ≠ "" →
      (collectResponse provide r ⟨pending, sent⟩).1 = concatUntilEmpty (r :: pending) := by
  intro pending
  induction pending with
  | nil =>
    intro r sent hr
    rw [collectResponse, dif_neg hr]
    have ho : oracleStep provide r ⟨[], sent⟩ = ("", ⟨[], sent⟩) := by
      simp [oracleStep, getInputMessage, hno]
    simp only [ho, ClientState.readResponse]
    simp [collectResponse_empty, concatUntilEmpty, hr, String.append_empty]
  | cons p ps ih =>
    intro r sent hr
    rw [collectResponse, dif_neg hr]
    have ho : oracleStep provide r ⟨p :: ps, sent⟩ = ("", ⟨p :: ps, sent⟩) := by
      simp [oracleStep, getInputMessage, hno]
    simp only [ho, ClientState.readResponse]
    by_cases hp : p = ""
    · subst hp
      simp [collectResponse_empty, concatUntilEmpty, hr, String.append_empty]
    · simp [ih p sent hp, concatUntilEmpty, hr, hp, String.append_empty]

theorem collectResponse_input_step (provide : String → String) (r i t : String)
    (ts sent : List String) (hr : r ≠ "") (h1 : provide r ≠ "breba-noop")
    (h2 : provide r ≠ "") :
    (collectResponse provide r ⟨i :: t :: ts, sent⟩).1
      = r ++ i ++ (collectResponse provide t
          ⟨ts, sent ++ [jsonDumpsObj "input" (provide r)]⟩).1 := by
  rw [collectResponse, dif_neg hr]
  have ho : oracleStep provide r ⟨i :: t :: ts, sent⟩
      = (i, ⟨t :: ts, sent ++ [jsonDumpsObj "input" (provide r)]⟩) := by
    simp [oracleStep, getInputMessage, h1, h2, ClientState.sendMessage]
  simp only [ho, ClientState.readResponse]

/-- C4: ContainerCommandExecutor.collect_response terminates for every peer
response sequence in which an empty response eventually occurs (it is a total
function of the modelled peer queue) and implements the concatenation rule:
when no input is injected it returns the concatenation of the initial response
and the non-empty trailing responses, the recursion stopping at the first
empty response; and when the oracle requests input on a non-empty response the
injected input response is concatenated before the recursion continues on the
next trailing response. -/
theorem collect_response_concatenation :
    (∀ (provide : String → String) (pending : List String) (r : String)
        (sent : List String),
      (∀ s, provide s = "breba-noop") → r ≠ "" →
      (collectResponse provide r ⟨pending, sent⟩).1 = concatUntilEmpty (r :: pending))
    ∧ (∀ (provide : String → String) (r i t : String) (ts sent : List String),
        r ≠ "" → provide r ≠ "breba-noop" → provide r ≠ "" →
        (collectResponse provide r ⟨i :: t :: ts, sent⟩).1
          = r ++ i ++ (collectResponse provide t
              ⟨ts, sent ++ [jsonDumpsObj "input" (provide r)]⟩).1) :=
  ⟨fun provide pending r sent hno hr => collectResponse_noop provide hno pending r sent hr,
    fun provide r i t ts sent hr h1 h2 =>
      collectResponse_input_step provide r i t ts sent hr h1 h2⟩

/-- Witness for C4: the response sequence "partial", "", "" of one command
collapses to the single returned string "partial". -/
theorem collect_response_concatenation_witness :
    (collectResponse provideNoop "partial" ⟨["", ""], []⟩).1 = "partial" := by
  have h := collect_response_concatenation.1 provideNoop ["", ""] "partial" []
    (fun _ => rfl) (by decide)
  rw [h]
  decide

/-- C9: when the oracle answers with the empty string, both input gateways
(LocalCommandExecutor.get_input_text and
ContainerCommandExecutor.get_input_message) return None, so an empty oracle
response is treated exactly like the no-input sentinel and nothing is ever
sent into the session for it. -/
theorem empty_oracle_response_is_none (provide : String → String) (text : String)
    (h : provide text = "") :
    getInputText provide text = none ∧ getInputMessage provide text = none := by
  constructor <;> simp [getInputText, getInputMessage, h]

/-- Witness for C9 at concrete inputs. -/
theorem empty_oracle_response_is_none_witness :
    getInputText emptyOracle "hi" = none ∧ getInputMessage emptyOracle "hi" = none :=
  empty_oracle_response_is_none emptyOracle "hi" rfl

/-- C5 is corrected by this counterexample: a local batch that completed
successfully (the spawned shell delivered its banner and the executor returned
its report list) whose session trace contains no session-closed event — the
local executor never tears down the process it spawned, so the claim that both
executors tear their session down after the batch on every exit path fails on
the local executor. -/
theorem local_session_never_closed_counterexample :
    (localExecuteCommandsSync agentNoop uuidsIdx [ReadEvent.data "b"] []).1 = .ok []
    ∧ SessionEvent.closed ∉
        (localExecuteCommandsSync agentNoop uuidsIdx [ReadEvent.data "b"] []).2 :=
  ⟨rfl, by decide⟩

/-- C5 amended: the container executor's socket session is created immediately
before the batch and closed after the batch on every exit path of the model
(its trace starts with the opened event and ends with the closed event), while
the local executor creates its shell session before the batch but never
explicitly tears it down: no closed event ever appears in its trace, on the
error path or the success path. -/
theorem session_scoping_amended (agent : AgentModel) (uuids : Nat → String)
    (script : List ReadEvent) (lcmds ccmds pending : List String) :
    (containerExecuteCommandsSync agent ccmds pending).2.head?
        = some SessionEvent.opened
    ∧ (containerExecuteCommandsSync agent ccmds pending).2.getLast?
        = some SessionEvent.closed
    ∧ (localExecuteCommandsSync agent uuids script lcmds).2.head?
        = some SessionEvent.opened
    ∧ SessionEvent.closed ∉ (localExecuteCommandsSync agent uuids script lcmds).2 := by
  refine ⟨rfl, ?_, ?_, ?_⟩
  · simp only [containerExecuteCommandsSync]
    rw [← List.cons_append, List.getLast?_concat]
  · cases script with
    | nil => rfl
    | cons e rest => cases e <;> rfl
  · cases script with
    | nil => simp [localExecuteCommandsSync]
    | cons e rest =>
      cases e with
      | data s => simp [localExecuteCommandsSync]
      | timeout => simp [localExecuteCommandsSync]
      | eof => simp [localExecuteCommandsSync]

/-! Helper lemmas about the repair loop and the report store. -/

theorem refStore_get_set_self (st : RefStore) (r : Nat) (v : List CommandReport)
    (h : r < st.lists.length) : (st.set r v).get r = v := by
  simp [RefStore.get, RefStore.set, List.getD_eq_getElem?_getD,
    List.getElem?_set_self h]

theorem mutatorLoop_spec (agent : AgentModel) (uuids : Nat → String)
    (scripts : Nat → List ReadEvent)
    (hbanner : ∀ i, ∃ s t, scripts i = ReadEvent.data s :: t) (modRef : Nat) :
    ∀ (crs : List CommandReport) (spawnIdx : Nat) (store : RefStore),
      modRef < store.lists.length →
      ∃ st si reqs,
        mutatorLoop agent uuids scripts modRef spawnIdx store crs = .ok (st, si, reqs)
        ∧ reqs = failedReports crs
        ∧ st.lists.length = store.lists.length
        ∧ (st.get modRef).length = (store.get modRef).length
            + (reqs.map (fun cr => (agent.fetchModifyFileCommands cr).length)).sum
        ∧ (failedReports crs = [] → st = store) := by
  intro crs
  induction crs with
  | nil =>
    intro spawnIdx store hlt
    exact ⟨store, spawnIdx, [], rfl, by simp [failedReports], rfl, by simp,
      fun _ => rfl⟩
  | cons cr crs ih =>
    intro spawnIdx store hlt
    by_cases hf : isFailed cr = true
    · obtain ⟨s, t, hscript⟩ := hbanner spawnIdx
      have hok : (localExecuteCommandsSync agent uuids (scripts spawnIdx)
          (agent.fetchModifyFileCommands cr)).1
            = .ok ((runCommandsOutputs agent.provideInput uuids 0 t
                (agent.fetchModifyFileCommands cr)).map agent.analyzeOutput) := by
        rw [hscript]
        simp [localExecuteCommandsSync, runCommandsReports_eq]
      set reps := (runCommandsOutputs agent.provideInput uuids 0 t
          (agent.fetchModifyFileCommands cr)).map agent.analyzeOutput with hreps
      have hrepslen : reps.length = (agent.fetchModifyFileCommands cr).length := by
        rw [hreps]
        simp [runCommandsOutputs_length]
      have hlt2 : modRef < (store.set modRef (store.get modRef ++ reps)).lists.length := by
        simpa [RefStore.set] using hlt
      obtain ⟨st, si, reqs, hloop, hreqs, hlen, hmod, _⟩ :=
        ih (spawnIdx + 1) (store.set modRef (store.get modRef ++ reps)) hlt2
      refine ⟨st, si, cr :: reqs, ?_, ?_, ?_, ?_, ?_⟩
      · simp only [mutatorLoop, hf, if_true, hok, hloop]
      · simp [failedReports, List.filter_cons, hf] at hreqs ⊢
        exact hreqs
      · rw [hlen]
        simp [RefStore.set]
      · rw [hmod, refStore_get_set_self store modRef _ hlt]
        simp only [List.length_append, hrepslen, List.map_cons, List.sum_cons]
        omega
      · intro hcontra
        rw [failedReports, List.filter_cons, hf] at hcontra
        simp at hcontra
    · obtain ⟨st, si, reqs, hloop, hreqs, hlen, hmod, hempty⟩ := ih spawnIdx store hlt
      have hstep : mutatorLoop agent uuids scripts modRef spawnIdx store (cr :: crs)
          = mutatorLoop agent uuids scripts modRef spawnIdx store crs := by
        simp only [mutatorLoop, hf, if_false, Bool.false_eq_true]
      refine ⟨st, si, reqs, ?_, ?_, hlen, hmod, ?_⟩
      · rw [hstep, hloop]
      · rw [hreqs]
        simp [failedReports, List.filter_cons, hf]
      · intro hemp
        apply hempty
        simpa [failedReports, List.filter_cons, hf] using hemp

/-- C7: the repair loop requests corrective commands exactly once per command
report that is not successful (None and False both count, True never), a goal
whose command reports are all successful leaves the store untouched (so its
modification-report list stays empty when it started empty), and each request's
corrective commands run through the local executor, appending exactly one
report per corrective command to the goal's modification-report list.  The
hypotheses say that each spawned repair shell delivers a startup banner, that
the two list references of the goal are distinct (they always are in the
pipeline, and the embedding iterates over the command reports as they are at
loop entry), and that the modification-list reference is live in the store. -/
theorem repair_loop_requests_and_reports (agent : AgentModel) (uuids : Nat → String)
    (scripts : Nat → List ReadEvent) (goalReports : List GoalReport)
    (store : RefStore) (g : GoalReport)
    (hlast : goalReports.getLast? = some g)
    (hbanner : ∀ i, ∃ s t, scripts i = ReadEvent.data s :: t)
    (_hrefs : g.command_reports ≠ g.modify_command_reports)
    (hlt : g.modify_command_reports < store.lists.length) :
    ∃ grs store2 reqs,
      executeMutatorCommands agent uuids scripts goalReports store
          = .ok (grs, store2, reqs)
      ∧ reqs = failedReports (store.get g.command_reports)
      ∧ (store2.get g.modify_command_reports).length
          = (store.get g.modify_command_reports).length
            + (reqs.map (fun cr => (agent.fetchModifyFileCommands cr).length)).sum
      ∧ (failedReports (store.get g.command_reports) = [] → store2 = store) := by
  obtain ⟨st, si, reqs, hloop, hreqs, _, hmod, hempty⟩ :=
    mutatorLoop_spec agent uuids scripts hbanner g.modify_command_reports
      (store.get g.command_reports) 0 store hlt
  refine ⟨goalReports.dropLast ++ [g], st, reqs, ?_, hreqs, hmod, ?_⟩
  · simp only [executeMutatorCommands, hlast, hloop]
  · intro h0
    exact hempty h0

/-- Witness for C7 at concrete inputs: one goal with one failing command
report, a store holding its two lists, and repair shells that print a banner. -/
theorem repair_loop_requests_and_reports_witness :
    ∃ grs store2 reqs,
      executeMutatorCommands agentNoop uuidsIdx scriptsBug [goalBug] storeBug
          = .ok (grs, store2, reqs)
      ∧ reqs = failedReports (storeBug.get goalBug.command_reports)
      ∧ (store2.get goalBug.modify_command_reports).length
          = (storeBug.get goalBug.modify_command_reports).length
            + (reqs.map (fun cr => (agentNoop.fetchModifyFileCommands cr).length)).sum
      ∧ (failedReports (storeBug.get goalBug.command_reports) = [] →
          store2 = storeBug) :=
  repair_loop_requests_and_reports agentNoop uuidsIdx scriptsBug [goalBug] storeBug
    goalBug rfl (fun _ => ⟨"banner", [], rfl⟩) (by decide) (by decide)

/-- C6 fails on the code: this theorem evaluates the repair stage at a state
with one goal report holding one failed command.  dataclasses.replace makes a
shallow copy, so the copied goal shares the list object behind its
modify_command_reports reference with the prior stage's report, and the
augmented assignment extends that shared list in place: after the stage, the
prior report's reference (reference 1) dereferences to the one new repair
report, no longer to the empty list it held before, so the prior stage's
report did not remain unchanged. -/
theorem mutator_aliasing_mutates_prior_report :
    executeMutatorCommands agentNoop uuidsIdx scriptsBug [goalBug] storeBug
        = .ok ([goalBug], storeBugAfter, [crFail])
    ∧ storeBug.get goalBug.modify_command_reports = []
    ∧ storeBugAfter.get goalBug.modify_command_reports = [repEmpty] := by
  have hloop : commandLoop provideNoop ("Completed " ++ uuidsIdx 0) []
      = ⟨"", [], 1, []⟩ := by
    rw [commandLoop]
    simp [collectOutput]
  have hlocal : (localExecuteCommandsSync agentNoop uuidsIdx [ReadEvent.data "banner"]
      ["fix"]).1 = .ok [repEmpty] := by
    simp [localExecuteCommandsSync, runCommandsReports, runCommand, agentNoop,
      hloop, repEmpty]
  refine ⟨?_, by decide, by decide⟩
  have hlast2 : ([goalBug] : List GoalReport).getLast? = some goalBug := rfl
  have hg : storeBug.get goalBug.command_reports = [crFail] := rfl
  have hfail : isFailed crFail = true := rfl
  have hfetch : agentNoop.fetchModifyFileCommands crFail = ["fix"] := rfl
  have hscript : scriptsBug 0 = [ReadEvent.data "banner"] := rfl
  have hset : storeBug.set goalBug.modify_command_reports
      (storeBug.get goalBug.modify_command_reports ++ [repEmpty]) = storeBugAfter := rfl
  have hdrop : ([goalBug] : List GoalReport).dropLast = [] := rfl
  simp [executeMutatorCommands, mutatorLoop, hlast2, hg, hfail, hfetch, hscript,
    hlocal, hset, hdrop]
